import Mathlib

/-!
Verification of the task-state reconciliation core of the Taskify app.

The definitions below are a shallow embedding of:
  * `src/types/index.ts`            — the `Task` entity model;
  * `src/providers/AppProvider.tsx` — the reconciler: canonical task list,
    add/update/delete/toggle mutations, derived views, change-feed handlers;
  * `src/lib/taskService.ts`        — the remote task store adapter:
    row shape, `mapToTask`, sparse-patch construction in `updateTask`,
    and the `getTasks` own-tasks/shared-tasks union.

JavaScript pecularities that matter are modelled explicitly:
  * a `Partial<Task>` key can be absent, present with a value, or present
    with the value `undefined`; object spread applies present keys (even
    `undefined` ones) while `!== undefined` guards treat a present
    `undefined` key like an absent one (type `Upd`);
  * `x || null` / `x || undefined` coerce the empty string and `false`
    to the null-ish value (`strOrNone`, `boolOrNone`);
  * `new Map(pairs)` keeps, per key, the position of the first pair and
    the value of the last pair (`dedupById`).
-/

namespace Taskify

/-- `Priority` from `src/types/index.ts`. -/
inductive Priority
  | high
  | medium
  | low
  | none
deriving DecidableEq, Repr

/-- `TaskStatus` from `src/types/index.ts`. -/
inductive TaskStatus
  | pending
  | completed
  | overdue
deriving DecidableEq, Repr

/-- `TaskCategory` from `src/types/index.ts`. -/
inductive TaskCategory
  | work
  | personal
  | health
  | shopping
  | other
deriving DecidableEq, Repr

/-- The `Task` interface from `src/types/index.ts`.  Optional (`?`) fields
are `Option`s; `none` is JavaScript `undefined`. -/
structure Task where
  id : String
  title : String
  description : Option String := Option.none
  dueDate : Option String := Option.none
  dueTime : Option String := Option.none
  priority : Priority
  status : TaskStatus
  category : TaskCategory
  tags : Option (List String) := Option.none
  assignedTo : Option (List String) := Option.none
  createdAt : String
  completedAt : Option String := Option.none
  isRecurring : Option Bool := Option.none
  recurringPattern : Option String := Option.none
  createdById : Option String := Option.none
  updatedById : Option String := Option.none
  updatedAt : Option String := Option.none
deriving DecidableEq, Repr

/-- `Omit<Task, 'id' | 'createdAt'>` — the draft passed to `addTask`. -/
structure TaskDraft where
  title : String
  description : Option String := Option.none
  dueDate : Option String := Option.none
  dueTime : Option String := Option.none
  priority : Priority
  status : TaskStatus
  category : TaskCategory
  tags : Option (List String) := Option.none
  assignedTo : Option (List String) := Option.none
  completedAt : Option String := Option.none
  isRecurring : Option Bool := Option.none
  recurringPattern : Option String := Option.none
deriving DecidableEq, Repr

/-- A field of a JavaScript partial-update object: either the key is absent
(`unset`) or it is present carrying a value (`set v`).  For a field whose
underlying type is `Option _`, `set Option.none` is the key present with the
explicit value `undefined`. -/
inductive Upd (α : Type)
  | unset
  | set (v : α)
deriving DecidableEq, Repr

/-- Key present in the partial object (JS `key in updates`). -/
def Upd.isSet {α : Type} : Upd α → Bool
  | .unset => false
  | .set _ => true

/-- Object-spread semantics for a single field: a present key overwrites,
an absent key keeps the old value. -/
def updField {α : Type} (u : Upd α) (old : α) : α :=
  match u with
  | .unset => old
  | .set v => v

/-- `Partial<Task>` restricted to the updatable fields — exactly the twelve
fields `TaskService.updateTask` forwards (`src/lib/taskService.ts:198-209`)
and the fields the in-app callers (edit screen, `toggleTaskComplete`) pass. -/
structure PartialTask where
  title : Upd String := .unset
  description : Upd (Option String) := .unset
  dueDate : Upd (Option String) := .unset
  dueTime : Upd (Option String) := .unset
  priority : Upd Priority := .unset
  status : Upd TaskStatus := .unset
  category : Upd TaskCategory := .unset
  tags : Upd (Option (List String)) := .unset
  assignedTo : Upd (Option (List String)) := .unset
  completedAt : Upd (Option String) := .unset
  isRecurring : Upd (Option Bool) := .unset
  recurringPattern : Upd (Option String) := .unset
deriving DecidableEq, Repr

/-- JavaScript `{ ...task, ...updates }` (local update paths in
`src/providers/AppProvider.tsx:143-144,153`). -/
def applyUpdates (t : Task) (u : PartialTask) : Task :=
  { t with
    title := updField u.title t.title
    description := updField u.description t.description
    dueDate := updField u.dueDate t.dueDate
    dueTime := updField u.dueTime t.dueTime
    priority := updField u.priority t.priority
    status := updField u.status t.status
    category := updField u.category t.category
    tags := updField u.tags t.tags
    assignedTo := updField u.assignedTo t.assignedTo
    completedAt := updField u.completedAt t.completedAt
    isRecurring := updField u.isRecurring t.isRecurring
    recurringPattern := updField u.recurringPattern t.recurringPattern }

/-- `x || undefined` / `x || null` on a nullable string: the empty string is
falsy in JavaScript and collapses to the null-ish value. -/
def strOrNone (o : Option String) : Option String :=
  match o with
  | Option.none => Option.none
  | Option.some s => if s = "" then Option.none else Option.some s

/-- `x || undefined` on a nullable boolean: `false` is falsy. -/
def boolOrNone (o : Option Bool) : Option Bool :=
  match o with
  | Option.none => Option.none
  | Option.some b => if b then Option.some true else Option.none

/-- The `TaskRow` shape of `src/lib/taskService.ts` (plus the
`created_by_id`/`updated_by_id`/`updated_at` columns read by `mapToTask`).
`Option.none` models SQL `NULL`. -/
structure TaskRow where
  id : String
  user_id : String
  title : String
  description : Option String := Option.none
  due_date : Option String := Option.none
  due_time : Option String := Option.none
  priority : Priority
  status : TaskStatus
  category : TaskCategory
  tags : Option (List String) := Option.none
  assigned_to : Option (List String) := Option.none
  created_at : String
  completed_at : Option String := Option.none
  is_recurring : Option Bool := Option.none
  recurring_pattern : Option String := Option.none
  created_by_id : Option String := Option.none
  updated_by_id : Option String := Option.none
  updated_at : Option String := Option.none
deriving DecidableEq, Repr

/-- `TaskService.mapToTask` (`src/lib/taskService.ts:30-50`): `row.x || undefined`
collapses `null` and the empty string (and `false` for `is_recurring`) to an
absent field; arrays are always truthy so `tags`/`assigned_to` pass through. -/
def mapToTask (row : TaskRow) : Task :=
  { id := row.id
    title := row.title
    description := strOrNone row.description
    dueDate := strOrNone row.due_date
    dueTime := strOrNone row.due_time
    priority := row.priority
    status := row.status
    category := row.category
    tags := row.tags
    assignedTo := row.assigned_to
    createdAt := row.created_at
    completedAt := strOrNone row.completed_at
    isRecurring := boolOrNone row.is_recurring
    recurringPattern := strOrNone row.recurring_pattern
    createdById := strOrNone row.created_by_id
    updatedById := strOrNone row.updated_by_id
    updatedAt := strOrNone row.updated_at }

/-- The sparse patch `TaskService.updateTask` builds (`Partial<TaskRow>`):
only the twelve updatable columns can be present. -/
structure RowPatch where
  title : Upd String := .unset
  description : Upd (Option String) := .unset
  due_date : Upd (Option String) := .unset
  due_time : Upd (Option String) := .unset
  priority : Upd Priority := .unset
  status : Upd TaskStatus := .unset
  category : Upd TaskCategory := .unset
  tags : Upd (Option (List String)) := .unset
  assigned_to : Upd (Option (List String)) := .unset
  completed_at : Upd (Option String) := .unset
  is_recurring : Upd Bool := .unset
  recurring_pattern : Upd (Option String) := .unset
deriving DecidableEq, Repr

/-- Key present in the partial update with a defined (non-`undefined`) value:
the JavaScript guard `updates.x !== undefined` for a field of nullable type.
Note `set Option.none` (key present, value `undefined`) fails the guard. -/
def updDefined {α : Type} : Upd (Option α) → Bool
  | .set (Option.some _) => true
  | _ => false

/-- `if (updates.x !== undefined) updateRow.x = updates.x` for a column of
non-nullable type: forwarded verbatim when the key is present. -/
def patchReq {α : Type} (x : Upd α) : Upd α :=
  match x with
  | .set v => .set v
  | .unset => .unset

/-- `if (updates.x !== undefined) updateRow.y = updates.x || null` for a
nullable string column: forwarded when the key is present with a defined
value, the empty string coerced to `null`. -/
def patchOptStr (x : Upd (Option String)) : Upd (Option String) :=
  match x with
  | .set (Option.some v) => .set (strOrNone (Option.some v))
  | _ => .unset

/-- `if (updates.x !== undefined) updateRow.y = updates.x || null` for an
array column: arrays are truthy, so a defined value is forwarded verbatim. -/
def patchOptArr {α : Type} (x : Upd (Option α)) : Upd (Option α) :=
  match x with
  | .set (Option.some v) => .set (Option.some v)
  | _ => .unset

/-- `if (updates.isRecurring !== undefined) updateRow.is_recurring = updates.isRecurring`
— no `|| null`, forwarded verbatim when defined. -/
def patchOptBool (x : Upd (Option Bool)) : Upd Bool :=
  match x with
  | .set (Option.some b) => .set b
  | _ => .unset

/-- The `if (updates.x !== undefined) updateRow.y = ...` chain of
`TaskService.updateTask` (`src/lib/taskService.ts:196-209`). -/
def buildUpdateRow (u : PartialTask) : RowPatch :=
  { title := patchReq u.title
    description := patchOptStr u.description
    due_date := patchOptStr u.dueDate
    due_time := patchOptStr u.dueTime
    priority := patchReq u.priority
    status := patchReq u.status
    category := patchReq u.category
    tags := patchOptArr u.tags
    assigned_to := patchOptArr u.assignedTo
    completed_at := patchOptStr u.completedAt
    is_recurring := patchOptBool u.isRecurring
    recurring_pattern := patchOptStr u.recurringPattern }

/-- The remote store applying an `update(updateRow)`: listed columns are
written, absent columns keep their stored value. -/
def serverApplyPatch (row : TaskRow) (p : RowPatch) : TaskRow :=
  { row with
    title := updField p.title row.title
    description := updField p.description row.description
    due_date := updField p.due_date row.due_date
    due_time := updField p.due_time row.due_time
    priority := updField p.priority row.priority
    status := updField p.status row.status
    category := updField p.category row.category
    tags := updField p.tags row.tags
    assigned_to := updField p.assigned_to row.assigned_to
    completed_at := updField p.completed_at row.completed_at
    is_recurring := (match p.is_recurring with
      | .unset => row.is_recurring
      | .set b => Option.some b)
    recurring_pattern := updField p.recurring_pattern row.recurring_pattern }

/-- `TaskService.updateTask` on its happy path: build the sparse patch,
the store applies it and returns the updated row, which is mapped back. -/
def remoteUpdateTask (row : TaskRow) (u : PartialTask) : Task :=
  mapToTask (serverApplyPatch row (buildUpdateRow u))

/- ## Canonical task list and reconciler events -/

/-- `prev.some(t => t.id === i)`. -/
def hasId (s : List Task) (i : String) : Bool :=
  s.any (fun t => t.id == i)

/-- Number of entries carrying identifier `i`. -/
def countId (s : List Task) (i : String) : Nat :=
  s.countP (fun t => t.id == i)

/-- No two tasks of the canonical list share an identifier. -/
def uniqueIds (s : List Task) : Prop :=
  (s.map Task.id).Nodup

instance (s : List Task) : Decidable (uniqueIds s) :=
  List.nodupDecidable _

/-- `prev.map(t => t.id === u.id ? u : t)` — the replace-if-present merge used
by `updateTaskMutation.onSuccess` and the change-feed `onUpdate` handler. -/
def replaceById (s : List Task) (u : Task) : List Task :=
  s.map (fun t => if t.id == u.id then u else t)

/-- `prev.filter(t => t.id !== i)` — `deleteTask` and the change-feed
`onDelete` handler. -/
def removeById (s : List Task) (i : String) : List Task :=
  s.filter (fun t => !(t.id == i))

/-- One resolved effect applied to the canonical in-memory task list of
`src/providers/AppProvider.tsx`.  Mutation intents suspend at I/O, so by the
time an effect is applied the list may have changed; each constructor is the
exact `setTasks` call the code performs at that point. -/
inductive AppEvent
  /-- `addTaskMutation.onSuccess` (line 130): unconditional prepend. -/
  | addResolve (t : Task)
  /-- `updateTaskMutation.onSuccess` (lines 157-162): replace if present,
  nothing when the mutation resolved to `null`. -/
  | updateResolve (r : Option Task)
  /-- `deleteTask` (line 186): immediate optimistic filter. -/
  | deleteLocal (i : String)
  /-- change-feed `onInsert` (lines 292-299): prepend if identifier absent. -/
  | feedInsert (t : Task)
  /-- change-feed `onUpdate` (lines 300-302): replace if present. -/
  | feedUpdate (t : Task)
  /-- change-feed `onDelete` (lines 303-305): filter out the identifier. -/
  | feedDelete (i : String)
  /-- `setTasks(tasksQuery.data)` (lines 67-71): wholesale replacement by a
  completed fetch. -/
  | fetchReplace (l : List Task)
deriving Repr

/-- Apply one resolved effect to the canonical list. -/
def applyEvent (s : List Task) : AppEvent → List Task
  | .addResolve t => t :: s
  | .updateResolve r =>
      match r with
      | Option.none => s
      | Option.some u => replaceById s u
  | .deleteLocal i => removeById s i
  | .feedInsert t => if hasId s t.id then s else t :: s
  | .feedUpdate t => replaceById s t
  | .feedDelete i => removeById s i
  | .fetchReplace l => l

/-- Apply a sequence of resolved effects in order. -/
def applyEvents (s : List Task) (es : List AppEvent) : List Task :=
  es.foldl applyEvent s

/- ## The mutation functions of `AppProvider` -/

/-- `{ ...task, id: Date.now().toString(), createdAt: new Date().toISOString() }`
— the locally synthesized task of the unauthenticated and remote-failure add
paths (`src/providers/AppProvider.tsx:104-108,117-121`). -/
def synthesizeTask (d : TaskDraft) (nowId nowIso : String) : Task :=
  { id := nowId
    title := d.title
    description := d.description
    dueDate := d.dueDate
    dueTime := d.dueTime
    priority := d.priority
    status := d.status
    category := d.category
    tags := d.tags
    assignedTo := d.assignedTo
    createdAt := nowIso
    completedAt := d.completedAt
    isRecurring := d.isRecurring
    recurringPattern := d.recurringPattern }

/-- `addTaskMutation.mutationFn` (`src/providers/AppProvider.tsx:101-128`).
`authed` is `user?.id && isAuthenticated`; `created` is the value
`TaskService.createTask` resolved to (`Option.none` for a validation or
remote failure).  The function never throws: every path returns a task,
which `onSuccess` then prepends (`AppEvent.addResolve`). -/
def addTaskMutationFn (authed : Bool) (created : Option Task) (d : TaskDraft)
    (nowId nowIso : String) : Task :=
  if !authed then synthesizeTask d nowId nowIso
  else
    match created with
    | Option.none => synthesizeTask d nowId nowIso
    | Option.some c => c

/-- `tasks.map(task => task.id === taskId ? { ...task, ...updates } : task)` —
the local update applied to a snapshot of the list
(`src/providers/AppProvider.tsx:143-145`). -/
def localUpdateList (s : List Task) (taskId : String) (u : PartialTask) : List Task :=
  s.map (fun t => if t.id == taskId then applyUpdates t u else t)

/-- `updateTaskMutation.mutationFn` (`src/providers/AppProvider.tsx:140-156`).
`snapshot` is the `tasks` closure captured when the mutation was issued;
`remote` is the value `TaskService.updateTask` resolved to on the
authenticated path.  Returns the task `onSuccess` will merge, or
`Option.none` when there is nothing to merge. -/
def updateTaskMutationFn (authed : Bool) (snapshot : List Task)
    (remote : Option Task) (taskId : String) (u : PartialTask) : Option Task :=
  if !authed then
    (localUpdateList snapshot taskId u).find? (fun t => t.id == taskId)
  else
    match remote with
    | Option.some r => Option.some r
    | Option.none =>
        (snapshot.find? (fun t => t.id == taskId)).map (fun t => applyUpdates t u)

/-- The `updates` object `toggleTaskComplete` builds
(`src/providers/AppProvider.tsx:193-197`): flip the status; `completedAt` is
the key present with the fresh timestamp when completing and present with the
explicit value `undefined` when un-completing. -/
def toggleUpdates (t : Task) (nowIso : String) : PartialTask :=
  let newStatus := if t.status == TaskStatus.completed
    then TaskStatus.pending else TaskStatus.completed
  { status := .set newStatus
    completedAt := .set (if newStatus == TaskStatus.completed
      then Option.some nowIso else Option.none) }

/-- `toggleTaskComplete` up to the point where it issues (or does not issue)
an update (`src/providers/AppProvider.tsx:189-198`): `Option.none` when no
task matches the identifier and the function returns early. -/
def toggleTaskComplete (s : List Task) (taskId nowIso : String) :
    Option (String × PartialTask) :=
  match s.find? (fun t => t.id == taskId) with
  | Option.none => Option.none
  | Option.some t => Option.some (taskId, toggleUpdates t nowIso)

/-- An issued update carried to resolution and merged by
`updateTaskMutation.onSuccess`: `snapshot` is the list at issue time,
`current` the list at resolution time. -/
def updateTaskStep (authed : Bool) (snapshot current : List Task)
    (remote : Option Task) (taskId : String) (u : PartialTask) : List Task :=
  applyEvent current (.updateResolve (updateTaskMutationFn authed snapshot remote taskId u))

/-- `toggleTaskComplete` run to completion with no interleaving: the issued
update (if any) resolves against the same list. -/
def toggleStep (authed : Bool) (s : List Task) (remote : Option Task)
    (taskId nowIso : String) : List Task :=
  match toggleTaskComplete s taskId nowIso with
  | Option.none => s
  | Option.some (tid, u) => updateTaskStep authed s s remote tid u

/-- One authenticated toggle round-trip on the happy remote path: the toggle
reads the canonical list, `TaskService.updateTask` patches the stored row and
returns it, and `onSuccess` merges the returned task.  Returns the new
canonical list and the new stored row. -/
def remoteToggleStep (s : List Task) (serverRow : TaskRow)
    (taskId nowIso : String) : List Task × TaskRow :=
  match toggleTaskComplete s taskId nowIso with
  | Option.none => (s, serverRow)
  | Option.some (tid, u) =>
      let newRow := serverApplyPatch serverRow (buildUpdateRow u)
      (updateTaskStep true s s (Option.some (mapToTask newRow)) tid u, newRow)

/- ## `TaskService.getTasks`: own-tasks and shared-tasks union -/

/-- One step of `new Map(allTasks.map(t => [t.id, t]))`: a pair with a fresh
key is appended; a pair with a seen key overwrites the value in place. -/
def insertOrReplace (acc : List Task) (t : Task) : List Task :=
  if hasId acc t.id then acc.map (fun x => if x.id == t.id then t else x)
  else acc ++ [t]

/-- Fold of `insertOrReplace` over the remaining input. -/
def dedupGo : List Task → List Task → List Task
  | acc, [] => acc
  | acc, t :: ts => dedupGo (insertOrReplace acc t) ts

/-- `Array.from(new Map(l.map(t => [t.id, t])).values())`: per identifier,
the position of its first occurrence and the content of its last. -/
def dedupById (l : List Task) : List Task :=
  dedupGo [] l

/-- `TaskService.getTasks` (`src/lib/taskService.ts:110-114`) after both
queries resolved: map the own rows and the shared rows, concatenate
(own first), and de-duplicate through the JavaScript `Map`. -/
def getTasksCombine (ownRows sharedRows : List TaskRow) : List Task :=
  dedupById (ownRows.map mapToTask ++ sharedRows.map mapToTask)

/- ## Derived views (`src/providers/AppProvider.tsx:245-262`) -/

/-- JavaScript `<` on strings: lexicographic comparison of the character
sequences, a proper prefix comparing smaller. -/
def charListLt : List Char → List Char → Bool
  | _, [] => false
  | [], _ :: _ => true
  | a :: as, b :: bs =>
      if a < b then true
      else if b < a then false
      else charListLt as bs

/-- JavaScript `a < b` on the due-date strings. -/
def strLt (a b : String) : Bool := charListLt a.data b.data

/-- `tasks.filter(t => t.dueDate === today && t.status !== 'completed')`. -/
def todayView (s : List Task) (today : String) : List Task :=
  s.filter (fun t => t.dueDate == Option.some today && !(t.status == TaskStatus.completed))

/-- `tasks.filter(t => t.dueDate && t.dueDate > today && t.status !== 'completed')`
— JavaScript truthiness makes an empty-string due date fail the guard. -/
def upcomingView (s : List Task) (today : String) : List Task :=
  s.filter (fun t =>
    (match t.dueDate with
     | Option.none => false
     | Option.some d => !(d == "") && strLt today d) &&
    !(t.status == TaskStatus.completed))

/-- `tasks.filter(t => t.status === 'completed')`. -/
def completedView (s : List Task) : List Task :=
  s.filter (fun t => t.status == TaskStatus.completed)

/-- `tasks.filter(t => t.dueDate && t.dueDate < today && t.status !== 'completed')`. -/
def overdueView (s : List Task) (today : String) : List Task :=
  s.filter (fun t =>
    (match t.dueDate with
     | Option.none => false
     | Option.some d => !(d == "") && strLt d today) &&
    !(t.status == TaskStatus.completed))

/-- First entry with the given identifier. -/
def findById (s : List Task) (i : String) : Option Task :=
  s.find? (fun t => t.id == i)

/-- Last entry with the given identifier. -/
def lastById : List Task → String → Option Task
  | [], _ => Option.none
  | t :: ts, i =>
      match lastById ts i with
      | Option.some u => Option.some u
      | Option.none => if t.id == i then Option.some t else Option.none

/- ## Side conditions under which every reconciler event preserves
identifier uniqueness -/

/-- The freshness/uniqueness side condition of a single event: the
add-resolution prepend (which performs no duplicate check in the source)
must carry an identifier absent from the current list, and a fetch
replacement must install an id-unique list (which `TaskService.getTasks`
always produces).  All other events need no condition. -/
def eventOkB (s : List Task) : AppEvent → Bool
  | .addResolve t => !(hasId s t.id)
  | .fetchReplace l => decide (uniqueIds l)
  | _ => true

/-- The side condition along a whole event sequence, each event checked
against the state it is applied to. -/
def eventsOkB (s : List Task) : List AppEvent → Bool
  | [] => true
  | e :: es => eventOkB s e && eventsOkB (applyEvent s e) es

/- ## Concrete sample data used by the closed theorems -/

/-- A sample task. -/
def taskA : Task :=
  { id := "a1", title := "write report", priority := Priority.high,
    status := TaskStatus.pending, category := TaskCategory.work,
    createdAt := "2024-05-01T09:00:00Z" }

/-- A second sample task with a distinct identifier. -/
def taskB : Task :=
  { id := "b2", title := "buy milk", priority := Priority.low,
    status := TaskStatus.pending, category := TaskCategory.shopping,
    createdAt := "2024-05-02T09:00:00Z" }

/-- Stored row backing the double-toggle scenario. -/
def rowC2 : TaskRow :=
  { id := "t1", user_id := "u1", title := "quarterly report",
    priority := Priority.medium, status := TaskStatus.pending,
    category := TaskCategory.work, created_at := "2024-01-01T00:00:00Z" }

/-- Authenticated toggle (complete) of `rowC2`'s task at 2024-01-02. -/
def toggleOnceC2 : List Task × TaskRow :=
  remoteToggleStep [mapToTask rowC2] rowC2 "t1" "2024-01-02T10:00:00Z"

/-- Authenticated toggle back (un-complete) at 2024-01-03. -/
def toggleTwiceC2 : List Task × TaskRow :=
  remoteToggleStep toggleOnceC2.1 toggleOnceC2.2 "t1" "2024-01-03T11:00:00Z"

/-- A pending task used to break the completion equivalence. -/
def taskC4 : Task :=
  { id := "t4", title := "stretch", priority := Priority.high,
    status := TaskStatus.pending, category := TaskCategory.health,
    createdAt := "2024-02-01T00:00:00Z" }

/-- The partial update `{status: 'completed'}` with no `completedAt`. -/
def updC4 : PartialTask := { status := .set TaskStatus.completed }

/-- A completed task carrying a completion timestamp. -/
def taskC4c : Task :=
  { id := "t4", title := "stretch", priority := Priority.high,
    status := TaskStatus.completed, category := TaskCategory.health,
    createdAt := "2024-02-01T00:00:00Z",
    completedAt := Option.some "2024-02-02T00:00:00Z" }

/-- `taskC4c` after a local un-complete toggle. -/
def taskC4x : Task :=
  { id := "t4", title := "stretch", priority := Priority.high,
    status := TaskStatus.pending, category := TaskCategory.health,
    createdAt := "2024-02-01T00:00:00Z", completedAt := Option.none }

/-- Owned copy of task `s1`. -/
def ownRowC5 : TaskRow :=
  { id := "s1", user_id := "A", title := "owned copy",
    priority := Priority.low, status := TaskStatus.pending,
    category := TaskCategory.work, created_at := "2024-03-05T00:00:00Z" }

/-- Shared copy of the same task `s1` with different content. -/
def sharedRowC5 : TaskRow :=
  { id := "s1", user_id := "B", title := "shared copy",
    priority := Priority.low, status := TaskStatus.pending,
    category := TaskCategory.work, created_at := "2024-03-05T00:00:00Z" }

/-- An old own task. -/
def ownRowOld : TaskRow :=
  { id := "o1", user_id := "A", title := "old own task",
    priority := Priority.low, status := TaskStatus.pending,
    category := TaskCategory.work, created_at := "2020-01-01T00:00:00Z" }

/-- A newer task shared with the same user. -/
def sharedRowNew : TaskRow :=
  { id := "n1", user_id := "B", title := "new shared task",
    priority := Priority.low, status := TaskStatus.pending,
    category := TaskCategory.work, created_at := "2025-01-01T00:00:00Z" }

/-- A pending task due on 2024-06-15. -/
def taskC8 : Task :=
  { id := "c8", title := "today item", priority := Priority.low,
    status := TaskStatus.pending, category := TaskCategory.other,
    createdAt := "2024-06-01T00:00:00Z", dueDate := Option.some "2024-06-15" }

/-- A partial update touching `title` (set) and `description` (present but
explicitly `undefined`), leaving everything else absent. -/
def updC6 : PartialTask :=
  { title := .set "renamed", description := .set Option.none }

/-- A stored row for the sparse-patch witness. -/
def rowC6 : TaskRow :=
  { id := "t6", user_id := "u6", title := "old title",
    description := Option.some "old description",
    priority := Priority.low, status := TaskStatus.completed,
    category := TaskCategory.other, created_at := "2024-04-01T00:00:00Z",
    completed_at := Option.some "2024-04-02T00:00:00Z" }

/- ## Helper lemmas -/

theorem charListLt_nil_right (l : List Char) : charListLt l [] = false := by
  cases l <;> rfl

theorem charListLt_irrefl (l : List Char) : charListLt l l = false := by
  induction l with
  | nil => rfl
  | cons a as ih => simp [charListLt, lt_irrefl, ih]

theorem charListLt_asymm (a b : List Char) (h : charListLt a b = true) :
    charListLt b a = false := by
  induction a generalizing b with
  | nil =>
      cases b with
      | nil => simp [charListLt] at h
      | cons y ys => rfl
  | cons x xs ih =>
      cases b with
      | nil => simp [charListLt] at h
      | cons y ys =>
          by_cases h1 : x < y
          · have h2 : ¬ y < x := lt_asymm h1
            simp [charListLt, h1, h2]
          · by_cases h2 : y < x
            · simp [charListLt, h1, h2] at h
            · simp only [charListLt, if_neg h1, if_neg h2] at h
              simp only [charListLt, if_neg h2, if_neg h1]
              exact ih ys h

theorem strLt_irrefl (s : String) : strLt s s = false :=
  charListLt_irrefl s.data

theorem strLt_asymm (a b : String) (h : strLt a b = true) : strLt b a = false :=
  charListLt_asymm a.data b.data h

theorem strLt_empty_right (s : String) : strLt s "" = false :=
  charListLt_nil_right s.data

theorem hasId_nil (i : String) : hasId [] i = false := rfl

theorem hasId_cons (t : Task) (s : List Task) (i : String) :
    hasId (t :: s) i = ((t.id == i) || hasId s i) := by
  simp [hasId]

theorem hasId_eq_false_iff (s : List Task) (i : String) :
    hasId s i = false ↔ ∀ t ∈ s, t.id ≠ i := by
  simp [hasId, List.any_eq_true]

theorem countId_eq_zero_iff (s : List Task) (i : String) :
    countId s i = 0 ↔ hasId s i = false := by
  simp [countId, hasId, List.countP_eq_zero, List.any_eq_true]

theorem applyUpdates_id (t : Task) (u : PartialTask) :
    (applyUpdates t u).id = t.id := rfl

theorem id_replace_entry (u t : Task) :
    (if (t.id == u.id) = true then u else t).id = t.id := by
  by_cases h : (t.id == u.id) = true
  · have h' : t.id = u.id := by simpa using h
    simp [h, h']
  · simp [h]

theorem map_id_replaceById (s : List Task) (u : Task) :
    (replaceById s u).map Task.id = s.map Task.id := by
  induction s with
  | nil => rfl
  | cons t ts ih =>
      simp only [replaceById, List.map_cons] at ih ⊢
      rw [id_replace_entry, ih]

theorem hasId_replaceById (s : List Task) (u : Task) (i : String) :
    hasId (replaceById s u) i = hasId s i := by
  induction s with
  | nil => rfl
  | cons t ts ih =>
      simp only [replaceById, List.map_cons, hasId_cons] at ih ⊢
      rw [id_replace_entry, ih]

theorem uniqueIds_replaceById (s : List Task) (u : Task) (h : uniqueIds s) :
    uniqueIds (replaceById s u) := by
  unfold uniqueIds at *
  rw [map_id_replaceById]
  exact h

theorem uniqueIds_removeById (s : List Task) (i : String) (h : uniqueIds s) :
    uniqueIds (removeById s i) := by
  unfold uniqueIds at *
  exact h.sublist (List.Sublist.map Task.id (List.filter_sublist s))

theorem uniqueIds_cons (t : Task) (s : List Task)
    (hfresh : hasId s t.id = false) (h : uniqueIds s) : uniqueIds (t :: s) := by
  unfold uniqueIds at *
  rw [List.map_cons, List.nodup_cons]
  refine ⟨?_, h⟩
  intro hmem
  rcases List.mem_map.mp hmem with ⟨x, hx, hxid⟩
  exact (hasId_eq_false_iff s t.id).mp hfresh x hx hxid

theorem hasId_removeById (s : List Task) (i : String) :
    hasId (removeById s i) i = false := by
  rw [hasId_eq_false_iff]
  intro t ht
  have := (List.mem_filter.mp ht).2
  simpa using this

theorem replaceById_of_not_hasId (s : List Task) (u : Task)
    (h : hasId s u.id = false) : replaceById s u = s := by
  induction s with
  | nil => rfl
  | cons t ts ih =>
      rw [hasId_cons, Bool.or_eq_false_iff] at h
      simp only [replaceById, List.map_cons] at ih ⊢
      rw [h.1, ih h.2]
      simp

theorem findById_replaceById_self (s : List Task) (u : Task)
    (h : hasId s u.id = true) : findById (replaceById s u) u.id = Option.some u := by
  induction s with
  | nil => simp [hasId] at h
  | cons t ts ih =>
      rw [hasId_cons] at h
      simp only [replaceById, List.map_cons, findById] at ih ⊢
      by_cases ht : (t.id == u.id) = true
      · rw [if_pos ht]
        exact List.find?_cons_of_pos _ (by simp)
      · rw [if_neg ht, List.find?_cons_of_neg _ (by simp [ht])]
        have h2 : hasId ts u.id = true := by
          rcases Bool.or_eq_true_iff.mp h with h1 | h2
          · exact absurd h1 ht
          · exact h2
        exact ih h2

theorem findById_replaceById_other (s : List Task) (u : Task) (i : String)
    (h : i ≠ u.id) : findById (replaceById s u) i = findById s i := by
  have hui : (u.id == i) = false := by
    simp only [beq_eq_false_iff_ne, ne_eq]
    intro he
    exact h he.symm
  induction s with
  | nil => rfl
  | cons t ts ih =>
      simp only [replaceById, List.map_cons, findById] at ih ⊢
      by_cases ht : (t.id == u.id) = true
      · have ht' : t.id = u.id := by simpa using ht
        have hti : (t.id == i) = false := by
          rw [ht']
          exact hui
        rw [if_pos ht]
        simp only [List.find?, hui, hti]
        exact ih
      · rw [if_neg ht]
        cases hti : (t.id == i) <;>
          simp only [List.find?, hti] <;>
          exact ih

theorem findById_append_right (s : List Task) (t : Task)
    (h : hasId s t.id = false) : findById (s ++ [t]) t.id = Option.some t := by
  induction s with
  | nil => simp [findById, List.find?]
  | cons x xs ih =>
      rw [hasId_cons, Bool.or_eq_false_iff] at h
      simp only [findById, List.cons_append, List.find?, h.1] at ih ⊢
      exact ih h.2

theorem findById_append_other (s : List Task) (t : Task) (i : String)
    (h : i ≠ t.id) : findById (s ++ [t]) i = findById s i := by
  have hti : (t.id == i) = false := by
    simp only [beq_eq_false_iff_ne, ne_eq]
    intro he
    exact h he.symm
  induction s with
  | nil => simp [findById, List.find?, hti]
  | cons x xs ih =>
      simp only [findById, List.cons_append] at ih ⊢
      cases hx : (x.id == i) <;>
        simp only [List.find?, hx] <;>
        exact ih

theorem hasId_append_singleton (s : List Task) (t : Task) (i : String) :
    hasId (s ++ [t]) i = (hasId s i || (t.id == i)) := by
  simp [hasId, List.any_append]

theorem countId_cons (t : Task) (s : List Task) (i : String) :
    countId (t :: s) i = countId s i + (if (t.id == i) = true then 1 else 0) := by
  simp [countId, List.countP_cons]

theorem countId_replaceById (s : List Task) (u : Task) (i : String) :
    countId (replaceById s u) i = countId s i := by
  induction s with
  | nil => rfl
  | cons t ts ih =>
      simp only [replaceById, List.map_cons] at ih ⊢
      rw [countId_cons, countId_cons, id_replace_entry, ih]

theorem countId_append_singleton (s : List Task) (t : Task) (i : String) :
    countId (s ++ [t]) i = countId s i + (if (t.id == i) = true then 1 else 0) := by
  simp [countId, List.countP_append, List.countP_cons]

/- ### `insertOrReplace` (one `Map.set`) -/

theorem hasId_insertOrReplace (acc : List Task) (t : Task) (i : String) :
    hasId (insertOrReplace acc t) i = (hasId acc i || (t.id == i)) := by
  unfold insertOrReplace
  by_cases h : hasId acc t.id = true
  · rw [if_pos h]
    have := hasId_replaceById acc t i
    unfold replaceById at this
    rw [this]
    by_cases hti : (t.id == i) = true
    · have hti' : t.id = i := by simpa using hti
      rw [hti'] at h
      simp [h, hti]
    · simp [Bool.eq_false_iff.mpr hti]
  · rw [if_neg h, hasId_append_singleton]

theorem uniqueIds_insertOrReplace (acc : List Task) (t : Task)
    (h : uniqueIds acc) : uniqueIds (insertOrReplace acc t) := by
  unfold insertOrReplace
  by_cases hacc : hasId acc t.id = true
  · rw [if_pos hacc]
    have := uniqueIds_replaceById acc t h
    unfold replaceById at this
    exact this
  · rw [if_neg hacc]
    unfold uniqueIds at *
    rw [List.map_append, List.nodup_append]
    refine ⟨h, List.nodup_singleton _, ?_⟩
    intro a ha hb
    simp only [List.map_cons, List.map_nil, List.mem_singleton] at hb
    subst hb
    rcases List.mem_map.mp ha with ⟨x, hx, hxid⟩
    have : hasId acc t.id = true := by
      rw [hasId, List.any_eq_true]
      exact ⟨x, hx, by simp [hxid]⟩
    exact hacc this

theorem findById_insertOrReplace (acc : List Task) (t : Task) (i : String) :
    findById (insertOrReplace acc t) i
      = if i = t.id then Option.some t else findById acc i := by
  unfold insertOrReplace
  by_cases hacc : hasId acc t.id = true
  · rw [if_pos hacc]
    by_cases hit : i = t.id
    · subst hit
      rw [if_pos rfl]
      have h2 := findById_replaceById_self acc t hacc
      unfold replaceById at h2
      exact h2
    · rw [if_neg hit]
      have h2 := findById_replaceById_other acc t i hit
      unfold replaceById at h2
      exact h2
  · rw [if_neg hacc]
    by_cases hit : i = t.id
    · subst hit
      rw [if_pos rfl]
      exact findById_append_right acc t (by simpa using hacc)
    · rw [findById_append_other acc t i hit, if_neg hit]

theorem countId_insertOrReplace (acc : List Task) (t : Task) (i : String) :
    countId (insertOrReplace acc t) i
      = countId acc i + (if (hasId acc t.id = false ∧ t.id = i) then 1 else 0) := by
  unfold insertOrReplace
  by_cases hacc : hasId acc t.id = true
  · rw [if_pos hacc]
    have := countId_replaceById acc t i
    unfold replaceById at this
    rw [this]
    simp [hacc]
  · rw [if_neg hacc, countId_append_singleton]
    have hfalse : hasId acc t.id = false := by
      simpa using hacc
    simp [hfalse]

/- ### `dedupGo` (the whole `Map` construction) -/

theorem uniqueIds_dedupGo (l acc : List Task) (h : uniqueIds acc) :
    uniqueIds (dedupGo acc l) := by
  induction l generalizing acc with
  | nil => exact h
  | cons t ts ih => exact ih _ (uniqueIds_insertOrReplace acc t h)

theorem hasId_dedupGo (l acc : List Task) (i : String) :
    hasId (dedupGo acc l) i = (hasId acc i || hasId l i) := by
  induction l generalizing acc with
  | nil => simp [dedupGo, hasId]
  | cons t ts ih =>
      rw [dedupGo, ih, hasId_insertOrReplace, hasId_cons]
      cases hasId acc i <;> cases (t.id == i) <;> cases hasId ts i <;> rfl

theorem findById_dedupGo (l acc : List Task) (i : String) :
    findById (dedupGo acc l) i
      = (match lastById l i with
         | Option.some u => Option.some u
         | Option.none => findById acc i) := by
  induction l generalizing acc with
  | nil => rfl
  | cons t ts ih =>
      rw [dedupGo, ih, lastById]
      cases hts : lastById ts i with
      | some u => rfl
      | none =>
          rw [findById_insertOrReplace]
          by_cases hit : i = t.id
          · subst hit
            simp
          · have hf : (t.id == i) = false := by
              simp only [beq_eq_false_iff_ne, ne_eq]
              intro he
              exact hit he.symm
            rw [if_neg hit, hf]
            simp

theorem find?_localUpdateList (s : List Task) (taskId : String) (u : PartialTask) :
    (localUpdateList s taskId u).find? (fun t => t.id == taskId)
      = (s.find? (fun t => t.id == taskId)).map (fun t => applyUpdates t u) := by
  induction s with
  | nil => rfl
  | cons t ts ih =>
      simp only [localUpdateList, List.map_cons] at ih ⊢
      by_cases ht : (t.id == taskId) = true
      · rw [if_pos ht]
        have hup : ((applyUpdates t u).id == taskId) = true := by
          rw [applyUpdates_id]
          exact ht
        simp only [List.find?, ht, hup]
        rfl
      · have hf : (t.id == taskId) = false := by
          simpa using ht
        rw [if_neg ht]
        simp only [List.find?, hf]
        exact ih

theorem countId_of_uniqueIds (s : List Task) (i : String) (h : uniqueIds s) :
    countId s i = if hasId s i then 1 else 0 := by
  induction s with
  | nil => rfl
  | cons t ts ih =>
      unfold uniqueIds at h
      rw [List.map_cons, List.nodup_cons] at h
      rw [countId_cons, ih h.2, hasId_cons]
      by_cases hti : (t.id == i) = true
      · have hti' : t.id = i := by simpa using hti
        have hnot : hasId ts i = false := by
          rw [hasId_eq_false_iff]
          intro x hx hxi
          exact h.1 (List.mem_map.mpr ⟨x, hx, by rw [hxi, hti']⟩)
        simp [hti, hnot, hti']
      · have hf : (t.id == i) = false := by
          simpa using hti
        simp [hf]

theorem hasId_append (s₁ s₂ : List Task) (i : String) :
    hasId (s₁ ++ s₂) i = (hasId s₁ i || hasId s₂ i) := by
  simp [hasId, List.any_append]

theorem lastById_eq_none_iff (l : List Task) (i : String) :
    lastById l i = Option.none ↔ hasId l i = false := by
  induction l with
  | nil => simp [lastById, hasId]
  | cons t ts ih =>
      rw [lastById, hasId_cons]
      cases hts : lastById ts i with
      | some u =>
          simp only [hts]
          constructor
          · intro hh
            exact absurd hh (by simp)
          · intro hh
            rw [Bool.or_eq_false_iff] at hh
            exact absurd (ih.mpr hh.2) (by simp [hts])
      | none =>
          have h2 : hasId ts i = false := ih.mp hts
          by_cases hti : (t.id == i) = true
          · simp [hti, h2]
          · have hf : (t.id == i) = false := by
              simpa using hti
            simp [hf, h2]

theorem uniqueIds_applyEvent (s : List Task) (e : AppEvent)
    (h : uniqueIds s) (hok : eventOkB s e = true) : uniqueIds (applyEvent s e) := by
  cases e with
  | addResolve t =>
      have hfresh : hasId s t.id = false := by
        simpa [eventOkB] using hok
      exact uniqueIds_cons t s hfresh h
  | updateResolve r =>
      cases r with
      | none => exact h
      | some u => exact uniqueIds_replaceById s u h
  | deleteLocal i => exact uniqueIds_removeById s i h
  | feedInsert t =>
      by_cases hin : hasId s t.id = true
      · simpa [applyEvent, hin] using h
      · have hfresh : hasId s t.id = false := by
          simpa using hin
        simpa [applyEvent, hfresh] using uniqueIds_cons t s hfresh h
  | feedUpdate t => exact uniqueIds_replaceById s t h
  | feedDelete i => exact uniqueIds_removeById s i h
  | fetchReplace l =>
      simpa [eventOkB] using hok

/- ## The claims -/

/-- C1, counterexample.  The claim asserts identifier uniqueness for every
reachable canonical-list state.  It fails: `addTaskMutation.onSuccess`
(`src/providers/AppProvider.tsx:130`) prepends the resolved task with no
duplicate check, while the change feed may already have delivered the insert
event for the same row during the `await` of the remote create.  Starting
from the empty initial list, the change-feed insert of `taskA` followed by
the add-resolution of the same `taskA` is a reachable state holding two
tasks with the same identifier. -/
theorem addResolve_duplicates_counterexample :
    applyEvents [] [AppEvent.feedInsert taskA, AppEvent.addResolve taskA]
      = [taskA, taskA]
    ∧ ¬ uniqueIds (applyEvents [] [AppEvent.feedInsert taskA, AppEvent.addResolve taskA]) := by
  constructor
  · rfl
  · decide

/-- C1, amended: no two tasks of the canonical list share an identifier
after any sequence of add resolutions, update resolutions, deletes,
change-feed insert/update/delete events and fetch merges, provided each
add-resolution carries an identifier not already present at resolution time
and each fetch merge installs an id-unique list; update resolutions,
deletes and all change-feed events preserve uniqueness unconditionally. -/
theorem uniqueIds_invariant_under_ok_events (es : List AppEvent) (s : List Task)
    (h : uniqueIds s) (hok : eventsOkB s es = true) :
    uniqueIds (applyEvents s es) := by
  induction es generalizing s with
  | nil => exact h
  | cons e es ih =>
      rw [eventsOkB, Bool.and_eq_true] at hok
      exact ih _ (uniqueIds_applyEvent s e h hok.1) hok.2

/-- C1, witness: the amended invariant applied to a concrete event
sequence inserting two distinct tasks. -/
theorem uniqueIds_invariant_witness :
    uniqueIds ([] : List Task)
    ∧ eventsOkB [] [AppEvent.feedInsert taskA, AppEvent.addResolve taskB] = true
    ∧ uniqueIds (applyEvents [] [AppEvent.feedInsert taskA, AppEvent.addResolve taskB]) :=
  ⟨by decide, by decide,
    uniqueIds_invariant_under_ok_events
      [AppEvent.feedInsert taskA, AppEvent.addResolve taskB] [] (by decide) (by decide)⟩

/-- C3: with an authenticated session and `TaskService.createTask` resolving
to `null`, `addTaskMutation.mutationFn` still returns a task — the locally
synthesized one carrying the timestamp-derived identifier and the draft's
fields — and its resolution prepends exactly one new entry to the canonical
list; no error is surfaced (the mutation function is total). -/
theorem addTask_remote_create_failure_fallback (prev : List Task) (d : TaskDraft)
    (nowId nowIso : String) :
    addTaskMutationFn true Option.none d nowId nowIso = synthesizeTask d nowId nowIso
    ∧ applyEvent prev (AppEvent.addResolve (addTaskMutationFn true Option.none d nowId nowIso))
        = synthesizeTask d nowId nowIso :: prev
    ∧ (applyEvent prev (AppEvent.addResolve (addTaskMutationFn true Option.none d nowId nowIso))).length
        = prev.length + 1
    ∧ (synthesizeTask d nowId nowIso).id = nowId
    ∧ (synthesizeTask d nowId nowIso).createdAt = nowIso
    ∧ (synthesizeTask d nowId nowIso).title = d.title
    ∧ (synthesizeTask d nowId nowIso).description = d.description
    ∧ (synthesizeTask d nowId nowIso).dueDate = d.dueDate
    ∧ (synthesizeTask d nowId nowIso).priority = d.priority
    ∧ (synthesizeTask d nowId nowIso).status = d.status
    ∧ (synthesizeTask d nowId nowIso).category = d.category :=
  ⟨rfl, rfl, rfl, rfl, rfl, rfl, rfl, rfl, rfl, rfl, rfl⟩

/-- C7: the change-feed insert handler is idempotent — applying it a second
time with the same task leaves the canonical list unchanged, and from a list
not containing the identifier the double delivery leaves exactly one copy. -/
theorem feed_insert_idempotent (s : List Task) (t : Task) :
    applyEvent (applyEvent s (AppEvent.feedInsert t)) (AppEvent.feedInsert t)
      = applyEvent s (AppEvent.feedInsert t)
    ∧ (countId s t.id = 0 →
        countId (applyEvent (applyEvent s (AppEvent.feedInsert t)) (AppEvent.feedInsert t)) t.id
          = 1) := by
  constructor
  · by_cases h : hasId s t.id = true
    · simp [applyEvent, h]
    · have hf : hasId s t.id = false := by
        simpa using h
      simp [applyEvent, hf, hasId_cons]
  · intro h0
    have hf : hasId s t.id = false := (countId_eq_zero_iff s t.id).mp h0
    simp [applyEvent, hf, hasId_cons, countId_cons, h0]

/-- C7, witness: double delivery of `taskA`'s insert into the empty list. -/
theorem feed_insert_idempotent_witness :
    countId [] taskA.id = 0
    ∧ countId (applyEvent (applyEvent [] (AppEvent.feedInsert taskA))
        (AppEvent.feedInsert taskA)) taskA.id = 1 :=
  ⟨by decide, (feed_insert_idempotent [] taskA).2 (by decide)⟩

/-- C9: after the optimistic delete removed a task's identifier, the
resolution of an in-flight update for that identifier is merged with the
replace-if-present map and re-inserts nothing: the canonical list is
unchanged and still does not contain the identifier. -/
theorem update_resolution_no_reinsert (s : List Task) (u : Task) :
    applyEvent (applyEvent s (AppEvent.deleteLocal u.id)) (AppEvent.updateResolve (Option.some u))
      = applyEvent s (AppEvent.deleteLocal u.id)
    ∧ hasId (applyEvent (applyEvent s (AppEvent.deleteLocal u.id))
        (AppEvent.updateResolve (Option.some u))) u.id = false := by
  have hdel : hasId (removeById s u.id) u.id = false := hasId_removeById s u.id
  have heq : replaceById (removeById s u.id) u = removeById s u.id :=
    replaceById_of_not_hasId _ u hdel
  constructor
  · exact heq
  · show hasId (replaceById (removeById s u.id) u) u.id = false
    rw [heq]
    exact hdel

/-- C10: `toggleTaskComplete` with an identifier matching no task returns
before issuing anything: no update object is produced, and the canonical
list is unchanged whatever the session state or remote outcome would have
been. -/
theorem toggle_unknown_id_noop (authed : Bool) (s : List Task) (remote : Option Task)
    (taskId nowIso : String) (h : hasId s taskId = false) :
    toggleTaskComplete s taskId nowIso = Option.none
    ∧ toggleStep authed s remote taskId nowIso = s := by
  have hfind : s.find? (fun t => t.id == taskId) = Option.none := by
    rw [List.find?_eq_none]
    intro x hx
    simp only [Bool.not_eq_true, beq_eq_false_iff_ne, ne_eq]
    exact (hasId_eq_false_iff s taskId).mp h x hx
  constructor
  · simp [toggleTaskComplete, hfind]
  · simp [toggleStep, toggleTaskComplete, hfind]

/-- C10, witness: toggling an absent identifier on a one-task list. -/
theorem toggle_unknown_id_noop_witness :
    hasId [taskA] "zzz" = false
    ∧ toggleTaskComplete [taskA] "zzz" "2024-06-01T00:00:00Z" = Option.none
    ∧ toggleStep true [taskA] Option.none "zzz" "2024-06-01T00:00:00Z" = [taskA] := by
  have h := toggle_unknown_id_noop true [taskA] Option.none "zzz" "2024-06-01T00:00:00Z"
    (by decide)
  exact ⟨by decide, h.1, h.2⟩

/-- C2: completing then un-completing a task on the authenticated
remote-success path leaves the stale completion timestamp in place, because
`toggleTaskComplete` signals the clear with `completedAt: undefined` while
`TaskService.updateTask` guards every column with `!== undefined` and so
omits `completed_at` from the patch; the server keeps the old value and the
returned row is merged back.  The same double toggle on the local fallback
path does clear the timestamp, as the claim (and the intent documented by
`TaskService.uncompleteTask`) requires.  The code contradicts that intent:
this is a bug in `updateTask`'s sparse-patch guard. -/
theorem remote_toggle_twice_keeps_stale_timestamp :
    (toggleTwiceC2.1).map Task.status = [TaskStatus.pending]
    ∧ (toggleTwiceC2.1).map Task.completedAt = [Option.some "2024-01-02T10:00:00Z"]
    ∧ (toggleStep false (toggleStep false [mapToTask rowC2] Option.none "t1" "2024-01-02T10:00:00Z")
        Option.none "t1" "2024-01-03T11:00:00Z").map Task.completedAt = [Option.none] :=
  ⟨by decide, by decide, by decide⟩

/-- C4, counterexample.  The claim says every mutating operation — in
particular `updateTask` with arbitrary partial fields — preserves
`status = completed ↔ completedAt present`.  It fails: resolving the local
update `{status: 'completed'}` (no `completedAt`) over a pending task leaves
a task that is completed with no completion timestamp. -/
theorem partial_update_breaks_completion_equivalence :
    ∃ x ∈ updateTaskStep false [taskC4] [taskC4] Option.none "t4" updC4,
      x.status = TaskStatus.completed ∧ x.completedAt = Option.none := by
  decide

/-- C4, amended: `toggleTaskComplete` through the local fallback path always
leaves the toggled task satisfying `status = completed ↔ completedAt
present` (it sets both fields together); arbitrary `updateTask` partial
updates do not preserve the equivalence. -/
theorem local_toggle_completion_equivalence (s : List Task) (taskId nowIso : String)
    (x : Task) (hx : x ∈ toggleStep false s Option.none taskId nowIso)
    (hid : x.id = taskId) :
    (x.status = TaskStatus.completed ↔ x.completedAt ≠ Option.none) := by
  cases hfind : s.find? (fun t => t.id == taskId) with
  | none =>
      have hstep : toggleStep false s Option.none taskId nowIso = s := by
        simp [toggleStep, toggleTaskComplete, hfind]
      rw [hstep] at hx
      have hne := List.find?_eq_none.mp hfind x hx
      exact absurd (by simp [hid]) hne
  | some t0 =>
      have ht0 : (t0.id == taskId) = true := by
        have := List.find?_some (p := fun (t : Task) => t.id == taskId) hfind
        simpa using this
      have hmf : updateTaskMutationFn false s Option.none taskId (toggleUpdates t0 nowIso)
          = Option.some (applyUpdates t0 (toggleUpdates t0 nowIso)) := by
        show (localUpdateList s taskId (toggleUpdates t0 nowIso)).find?
            (fun t => t.id == taskId)
          = Option.some (applyUpdates t0 (toggleUpdates t0 nowIso))
        rw [find?_localUpdateList, hfind]
        rfl
      have hstep : toggleStep false s Option.none taskId nowIso
          = replaceById s (applyUpdates t0 (toggleUpdates t0 nowIso)) := by
        simp [toggleStep, toggleTaskComplete, hfind, updateTaskStep, hmf, applyEvent]
      rw [hstep] at hx
      rcases List.mem_map.mp hx with ⟨y, hy, hxy⟩
      subst hxy
      by_cases hyw : (y.id == (applyUpdates t0 (toggleUpdates t0 nowIso)).id) = true
      · rw [if_pos hyw]
        cases hst : (t0.status == TaskStatus.completed) <;>
          simp [applyUpdates, toggleUpdates, updField, hst]
      · rw [if_neg hyw] at hid ⊢
        have hw_id : (applyUpdates t0 (toggleUpdates t0 nowIso)).id = taskId := by
          rw [applyUpdates_id]
          simpa using ht0
        exact absurd (by simp [hid, hw_id]) hyw

/-- C4, witness: the local un-complete toggle of a completed task yields a
task satisfying the equivalence. -/
theorem local_toggle_completion_equivalence_witness :
    (taskC4x ∈ toggleStep false [taskC4c] Option.none "t4" "2024-02-03T00:00:00Z"
      ∧ taskC4x.id = "t4")
    ∧ (taskC4x.status = TaskStatus.completed ↔ taskC4x.completedAt ≠ Option.none) :=
  ⟨⟨by decide, by decide⟩,
    local_toggle_completion_equivalence [taskC4c] "t4" "2024-02-03T00:00:00Z" taskC4x
      (by decide) (by decide)⟩

/-- C5, counterexample.  The claim says the owned copy takes priority during
de-duplication and that the combined list is ordered newest-created-first.
Both fail: `new Map(pairs)` keeps the LAST value written per key, so when an
owned and a shared copy of id `s1` differ, the shared copy's content
survives; and the result is the own-query results followed by the
shared-query results, so an old own task precedes a newer shared task. -/
theorem getTasks_shared_copy_wins_counterexample :
    (getTasksCombine [ownRowC5] [sharedRowC5]).map Task.title = ["shared copy"]
    ∧ (getTasksCombine [ownRowOld] [sharedRowNew]).map Task.createdAt
        = ["2020-01-01T00:00:00Z", "2025-01-01T00:00:00Z"]
    ∧ strLt "2020-01-01T00:00:00Z" "2025-01-01T00:00:00Z" = true :=
  ⟨by decide, by decide, by decide⟩

/-- C5, amended: `getTasks` returns the own-query results followed by the
shared-query results, de-duplicated by identifier: every identifier of
either query appears exactly once (in particular, a task both owned by and
shared with the user appears exactly once), no other identifiers appear,
and the surviving entry per identifier is the last occurrence — the shared
copy, not the owned one, when both are present with the same id.  The
combined list is not globally re-sorted. -/
theorem getTasks_union_dedup_spec (own shared : List TaskRow) :
    uniqueIds (getTasksCombine own shared)
    ∧ (∀ i, hasId (getTasksCombine own shared) i
        = (hasId (own.map mapToTask) i || hasId (shared.map mapToTask) i))
    ∧ (∀ i, countId (getTasksCombine own shared) i
        = if (hasId (own.map mapToTask) i || hasId (shared.map mapToTask) i) = true
          then 1 else 0)
    ∧ (∀ i, findById (getTasksCombine own shared) i
        = lastById (own.map mapToTask ++ shared.map mapToTask) i) := by
  have huniq : uniqueIds (getTasksCombine own shared) :=
    uniqueIds_dedupGo _ [] (by simp [uniqueIds])
  have hhas : ∀ i, hasId (getTasksCombine own shared) i
      = (hasId (own.map mapToTask) i || hasId (shared.map mapToTask) i) := by
    intro i
    rw [getTasksCombine, dedupById, hasId_dedupGo, hasId_append]
    rfl
  refine ⟨huniq, hhas, ?_, ?_⟩
  · intro i
    rw [countId_of_uniqueIds _ _ huniq, hhas i]
  · intro i
    rw [getTasksCombine, dedupById, findById_dedupGo]
    cases hl : lastById (own.map mapToTask ++ shared.map mapToTask) i <;> rfl

/-- C6: `TaskService.updateTask` builds a sparse patch containing exactly
the fields that are present with a defined (non-`undefined`) value in the
partial update — one equation per updatable column — and the remote store
leaves every column absent from the patch at its stored value (the value
equations reduce to the stored value whenever the field is absent or
`undefined` in the update). -/
theorem updateTask_sparse_patch_spec (u : PartialTask) (row : TaskRow) :
    ((buildUpdateRow u).title.isSet = u.title.isSet
    ∧ (buildUpdateRow u).description.isSet = updDefined u.description
    ∧ (buildUpdateRow u).due_date.isSet = updDefined u.dueDate
    ∧ (buildUpdateRow u).due_time.isSet = updDefined u.dueTime
    ∧ (buildUpdateRow u).priority.isSet = u.priority.isSet
    ∧ (buildUpdateRow u).status.isSet = u.status.isSet
    ∧ (buildUpdateRow u).category.isSet = u.category.isSet
    ∧ (buildUpdateRow u).tags.isSet = updDefined u.tags
    ∧ (buildUpdateRow u).assigned_to.isSet = updDefined u.assignedTo
    ∧ (buildUpdateRow u).completed_at.isSet = updDefined u.completedAt
    ∧ (buildUpdateRow u).is_recurring.isSet = updDefined u.isRecurring
    ∧ (buildUpdateRow u).recurring_pattern.isSet = updDefined u.recurringPattern)
    ∧ ((serverApplyPatch row (buildUpdateRow u)).title
        = (match u.title with | .set v => v | .unset => row.title)
    ∧ (serverApplyPatch row (buildUpdateRow u)).description
        = (match u.description with
           | .set (Option.some v) => strOrNone (Option.some v)
           | _ => row.description)
    ∧ (serverApplyPatch row (buildUpdateRow u)).due_date
        = (match u.dueDate with
           | .set (Option.some v) => strOrNone (Option.some v)
           | _ => row.due_date)
    ∧ (serverApplyPatch row (buildUpdateRow u)).due_time
        = (match u.dueTime with
           | .set (Option.some v) => strOrNone (Option.some v)
           | _ => row.due_time)
    ∧ (serverApplyPatch row (buildUpdateRow u)).priority
        = (match u.priority with | .set v => v | .unset => row.priority)
    ∧ (serverApplyPatch row (buildUpdateRow u)).status
        = (match u.status with | .set v => v | .unset => row.status)
    ∧ (serverApplyPatch row (buildUpdateRow u)).category
        = (match u.category with | .set v => v | .unset => row.category)
    ∧ (serverApplyPatch row (buildUpdateRow u)).tags
        = (match u.tags with
           | .set (Option.some v) => Option.some v
           | _ => row.tags)
    ∧ (serverApplyPatch row (buildUpdateRow u)).assigned_to
        = (match u.assignedTo with
           | .set (Option.some v) => Option.some v
           | _ => row.assigned_to)
    ∧ (serverApplyPatch row (buildUpdateRow u)).completed_at
        = (match u.completedAt with
           | .set (Option.some v) => strOrNone (Option.some v)
           | _ => row.completed_at)
    ∧ (serverApplyPatch row (buildUpdateRow u)).is_recurring
        = (match u.isRecurring with
           | .set (Option.some b) => Option.some b
           | _ => row.is_recurring)
    ∧ (serverApplyPatch row (buildUpdateRow u)).recurring_pattern
        = (match u.recurringPattern with
           | .set (Option.some v) => strOrNone (Option.some v)
           | _ => row.recurring_pattern)) := by
  obtain ⟨t, d, dd, dt, pr, st, ca, tg, asg, ct, ir, rp⟩ := u
  refine ⟨⟨?_, ?_, ?_, ?_, ?_, ?_, ?_, ?_, ?_, ?_, ?_, ?_⟩,
    ?_, ?_, ?_, ?_, ?_, ?_, ?_, ?_, ?_, ?_, ?_, ?_⟩
  · cases t <;> rfl
  · cases d with
    | unset => rfl
    | set v => cases v <;> rfl
  · cases dd with
    | unset => rfl
    | set v => cases v <;> rfl
  · cases dt with
    | unset => rfl
    | set v => cases v <;> rfl
  · cases pr <;> rfl
  · cases st <;> rfl
  · cases ca <;> rfl
  · cases tg with
    | unset => rfl
    | set v => cases v <;> rfl
  · cases asg with
    | unset => rfl
    | set v => cases v <;> rfl
  · cases ct with
    | unset => rfl
    | set v => cases v <;> rfl
  · cases ir with
    | unset => rfl
    | set v => cases v <;> rfl
  · cases rp with
    | unset => rfl
    | set v => cases v <;> rfl
  · cases t <;> rfl
  · cases d with
    | unset => rfl
    | set v => cases v <;> rfl
  · cases dd with
    | unset => rfl
    | set v => cases v <;> rfl
  · cases dt with
    | unset => rfl
    | set v => cases v <;> rfl
  · cases pr <;> rfl
  · cases st <;> rfl
  · cases ca <;> rfl
  · cases tg with
    | unset => rfl
    | set v => cases v <;> rfl
  · cases asg with
    | unset => rfl
    | set v => cases v <;> rfl
  · cases ct with
    | unset => rfl
    | set v => cases v <;> rfl
  · cases ir with
    | unset => rfl
    | set v => cases v <;> rfl
  · cases rp with
    | unset => rfl
    | set v => cases v <;> rfl

/-- C8: for every canonical list and every value of `today`, the derived
views satisfy their definitions — today: due date equal to `today`;
upcoming: due date strictly greater; overdue: due date strictly smaller
(stated for due dates that are calendar-date strings, i.e. not the empty
string, which JavaScript truthiness silently drops from the overdue guard) —
each with status not completed; a task appears in at most one of the three,
and a completed task appears in none of them. -/
theorem derived_views_partition (s : List Task) (today : String) (t : Task) :
    (t ∈ todayView s today ↔
      t ∈ s ∧ t.dueDate = Option.some today ∧ t.status ≠ TaskStatus.completed)
    ∧ (t ∈ upcomingView s today ↔
      t ∈ s ∧ (∃ d, t.dueDate = Option.some d ∧ strLt today d = true)
        ∧ t.status ≠ TaskStatus.completed)
    ∧ (t.dueDate ≠ Option.some "" →
      (t ∈ overdueView s today ↔
        t ∈ s ∧ (∃ d, t.dueDate = Option.some d ∧ strLt d today = true)
          ∧ t.status ≠ TaskStatus.completed))
    ∧ (t ∈ completedView s ↔ t ∈ s ∧ t.status = TaskStatus.completed)
    ∧ (t ∈ todayView s today →
        ¬ t ∈ upcomingView s today ∧ ¬ t ∈ overdueView s today)
    ∧ (t ∈ upcomingView s today → ¬ t ∈ overdueView s today)
    ∧ (t.status = TaskStatus.completed →
        ¬ t ∈ todayView s today ∧ ¬ t ∈ upcomingView s today
          ∧ ¬ t ∈ overdueView s today) := by
  have htoday : t ∈ todayView s today ↔
      t ∈ s ∧ t.dueDate = Option.some today ∧ t.status ≠ TaskStatus.completed := by
    simp [todayView, List.mem_filter, and_assoc]
  have hupc0 : t ∈ upcomingView s today ↔
      t ∈ s ∧ (∃ d, t.dueDate = Option.some d ∧ ¬ d = "" ∧ strLt today d = true)
        ∧ t.status ≠ TaskStatus.completed := by
    cases hd : t.dueDate with
    | none => simp [upcomingView, List.mem_filter, hd]
    | some d => simp [upcomingView, List.mem_filter, hd, and_assoc]
  have hovd0 : t ∈ overdueView s today ↔
      t ∈ s ∧ (∃ d, t.dueDate = Option.some d ∧ ¬ d = "" ∧ strLt d today = true)
        ∧ t.status ≠ TaskStatus.completed := by
    cases hd : t.dueDate with
    | none => simp [overdueView, List.mem_filter, hd]
    | some d => simp [overdueView, List.mem_filter, hd, and_assoc]
  have hupc : t ∈ upcomingView s today ↔
      t ∈ s ∧ (∃ d, t.dueDate = Option.some d ∧ strLt today d = true)
        ∧ t.status ≠ TaskStatus.completed := by
    rw [hupc0]
    constructor
    · rintro ⟨h1, ⟨d, hd, _, hlt⟩, h3⟩
      exact ⟨h1, ⟨d, hd, hlt⟩, h3⟩
    · rintro ⟨h1, ⟨d, hd, hlt⟩, h3⟩
      refine ⟨h1, ⟨d, hd, ?_, hlt⟩, h3⟩
      intro he
      rw [he, strLt_empty_right] at hlt
      exact Bool.false_ne_true hlt
  have hcomp : t ∈ completedView s ↔ t ∈ s ∧ t.status = TaskStatus.completed := by
    simp [completedView, List.mem_filter]
  refine ⟨htoday, hupc, ?_, hcomp, ?_, ?_, ?_⟩
  · intro hne
    rw [hovd0]
    constructor
    · rintro ⟨h1, ⟨d, hd, _, hlt⟩, h3⟩
      exact ⟨h1, ⟨d, hd, hlt⟩, h3⟩
    · rintro ⟨h1, ⟨d, hd, hlt⟩, h3⟩
      refine ⟨h1, ⟨d, hd, ?_, hlt⟩, h3⟩
      intro he
      rw [he] at hd
      exact hne hd
  · intro ht
    rcases htoday.mp ht with ⟨_, hd, _⟩
    constructor
    · intro hu
      rcases hupc.mp hu with ⟨_, ⟨d, hd2, hlt⟩, _⟩
      rw [hd] at hd2
      injection hd2 with h'
      subst h'
      rw [strLt_irrefl] at hlt
      exact Bool.false_ne_true hlt
    · intro ho
      rcases hovd0.mp ho with ⟨_, ⟨d, hd2, _, hlt⟩, _⟩
      rw [hd] at hd2
      injection hd2 with h'
      subst h'
      rw [strLt_irrefl] at hlt
      exact Bool.false_ne_true hlt
  · intro hu ho
    rcases hupc.mp hu with ⟨_, ⟨d, hd1, hlt1⟩, _⟩
    rcases hovd0.mp ho with ⟨_, ⟨d2, hd2, _, hlt2⟩, _⟩
    rw [hd1] at hd2
    injection hd2 with h'
    subst h'
    rw [strLt_asymm today d hlt1] at hlt2
    exact Bool.false_ne_true hlt2
  · intro hc
    refine ⟨?_, ?_, ?_⟩
    · intro hx
      exact (htoday.mp hx).2.2 hc
    · intro hx
      exact (hupc.mp hx).2.2 hc
    · intro hx
      exact (hovd0.mp hx).2.2 hc

/-- C8, witness: a task due today sits in the today view and in neither the
upcoming nor the overdue view. -/
theorem derived_views_partition_witness :
    taskC8 ∈ todayView [taskC8] "2024-06-15"
    ∧ (¬ taskC8 ∈ upcomingView [taskC8] "2024-06-15"
        ∧ ¬ taskC8 ∈ overdueView [taskC8] "2024-06-15") :=
  ⟨by decide,
    (derived_views_partition [taskC8] "2024-06-15" taskC8).2.2.2.2.1 (by decide)⟩

end Taskify
